import Mathlib

/-!
Verification of the femto_go matching engine against its specification.

The definitions below are a shallow embedding of the Go sources:
the engine (`Limit`, `Cancel`, `match`, `matchLevel`, `addToBook`, `unlink`),
the per-book best-price scans (`updateBestBid`, `updateBestAsk`), and the
SPSC ring buffer (`NewRingBuffer`, `Push`, `Read`).  Fixed-size arrays are
modelled as total functions `Nat → α` updated pointwise; `uint32`/`uint64`
arithmetic is `Nat` arithmetic reduced modulo `2^32`/`2^64` at the points
where the Go code can wrap; the output ring of the engine is modelled as
the list of events pushed, in order.  Loops whose termination depends on
heap well-formedness take explicit fuel and return `none` when the fuel
runs out (corresponding to a non-terminating Go execution).
-/

namespace FemtoGo

/-- `MAX_SYMBOLS = 1 << 8` from the engine source. -/
def MAX_SYMBOLS : Nat := 2 ^ 8

/-- `MAX_PRICE_LEVELS = 1 << 14` from the engine source. -/
def MAX_PRICE_LEVELS : Nat := 2 ^ 14

/-- `MAX_ORDERS = 1 << 26` from the engine source. -/
def MAX_ORDERS : Nat := 2 ^ 26

/-- `DISTRIBUTOR_BUFFER = 1 << 10` from the engine source; it also sizes the
`freeSlots` array, so it is the freelist capacity. -/
def DISTRIBUTOR_BUFFER : Nat := 2 ^ 10

/-- `FREE_MASK = DISTRIBUTOR_BUFFER - 1` from the engine source. -/
def FREE_MASK : Nat := DISTRIBUTOR_BUFFER - 1

/-- `RING_SIZE = 1 << 16` from the ring-buffer source. -/
def RING_SIZE : Nat := 2 ^ 16

/-- `RING_MASK = RING_SIZE - 1` from the ring-buffer source. -/
def RING_MASK : Nat := RING_SIZE - 1

/-- Modulus of Go `uint32` arithmetic. -/
def U32 : Nat := 2 ^ 32

/-- Modulus of Go `uint64` arithmetic. -/
def U64 : Nat := 2 ^ 64

/-- Pointwise update of a function modelling a flat array. -/
def upd {α : Type} (f : Nat → α) (i : Nat) (v : α) : Nat → α :=
  fun j => if j = i then v else f j

/-- Go `type Side uint8`, `Bid = 0`, `Ask = 1`.  `Bid` is the zero value. -/
inductive Side where
  | Bid : Side
  | Ask : Side
deriving DecidableEq, Repr

/-- Go `EventType` from the ring-buffer source: `ORDER_EVENT`, `CANCEL_EVENT`,
`EXECUTION_EVENT`, `REJECT_EVENT`. -/
inductive EventType where
  | order : EventType
  | cancel : EventType
  | execution : EventType
  | reject : EventType
deriving DecidableEq, Repr

/-- The identity of a `PriceLevel` inside the engine: which book, which side,
which tick.  This stands for the Go `*PriceLevel` pointer, which always points
into `books[sym].bidLevels`/`askLevels`. -/
structure LevelRef where
  sym : Nat
  side : Side
  price : Nat
deriving DecidableEq, Repr

/-- Go `Order`: intrusive doubly-linked list node.  `level = none` models the
nil pointer of the zero value. -/
structure Order where
  prev : Nat
  next : Nat
  level : Option LevelRef
  size : Nat
deriving DecidableEq, Repr

/-- Go `PriceLevel`: FIFO queue of orders at one tick. -/
structure PriceLevel where
  head : Nat
  tail : Nat
  size : Nat
deriving DecidableEq, Repr

/-- Go `OrderBook`: two dense ladders of levels plus the best-price cursors. -/
structure OrderBook where
  bidMax : Nat
  askMin : Nat
  bidLevels : Nat → PriceLevel
  askLevels : Nat → PriceLevel

/-- Go `OutputEvent` of the ring-buffer source (capitalised-field version). -/
structure OutputEvent where
  type : EventType
  orderID : Nat
  price : Nat
  size : Nat
  trader : Nat
  symbol : Nat
  side : Side
  counterOrderID : Nat
deriving DecidableEq, Repr

/-- The zero value of `OutputEvent`, as produced by a Go composite literal
with omitted fields. -/
def zeroEvent : OutputEvent :=
  { type := EventType.order, orderID := 0, price := 0, size := 0, trader := 0
    symbol := 0, side := Side.Bid, counterOrderID := 0 }

/-- Go `Engine` (the order-pool version): books, flat order pool, id→slot
index, id generator, recycled-slot ring, and — in place of the output ring —
the list of events pushed so far, in push order. -/
structure Engine where
  books : Nat → OrderBook
  orders : Nat → Order
  orderIndex : Nat → Nat
  orderID : Nat
  freeSlots : Nat → Nat
  freeHead : Nat
  freeTail : Nat
  events : List OutputEvent

/-- An empty price level (Go zero value). -/
def zeroLevel : PriceLevel := { head := 0, tail := 0, size := 0 }

/-- A zero order record (Go zero value). -/
def zeroOrder : Order := { prev := 0, next := 0, level := none, size := 0 }

/-- `NewEngine`: every book starts with `bidMax = 0` and
`askMin = MAX_PRICE_LEVELS`; pool, index and freelist are zeroed. -/
def newEngine : Engine :=
  { books := fun _ =>
      { bidMax := 0, askMin := MAX_PRICE_LEVELS
        bidLevels := fun _ => zeroLevel, askLevels := fun _ => zeroLevel }
    orders := fun _ => zeroOrder
    orderIndex := fun _ => 0
    orderID := 0
    freeSlots := fun _ => 0
    freeHead := 0
    freeTail := 0
    events := [] }

/-- `e.outputRing.Push ev`, modelled as appending to the event list. -/
def pushEvent (e : Engine) (ev : OutputEvent) : Engine :=
  { e with events := e.events ++ [ev] }

/-- In-place mutation of one pool record (`e.orders[slot].f = v`). -/
def modifyOrder (e : Engine) (slot : Nat) (f : Order → Order) : Engine :=
  { e with orders := upd e.orders slot (f (e.orders slot)) }

/-- In-place mutation of one book (`&e.books[sym]`). -/
def modifyBook (e : Engine) (sym : Nat) (f : OrderBook → OrderBook) : Engine :=
  { e with books := upd e.books sym (f (e.books sym)) }

/-- Read a level of a book on the given side. -/
def levelGet (b : OrderBook) (sd : Side) (price : Nat) : PriceLevel :=
  match sd with
  | Side.Bid => b.bidLevels price
  | Side.Ask => b.askLevels price

/-- Write a level of a book on the given side. -/
def levelSet (b : OrderBook) (sd : Side) (price : Nat) (l : PriceLevel) : OrderBook :=
  match sd with
  | Side.Bid => { b with bidLevels := upd b.bidLevels price l }
  | Side.Ask => { b with askLevels := upd b.askLevels price l }

/-- Dereference a level pointer. -/
def getLevel (e : Engine) (ref : LevelRef) : PriceLevel :=
  levelGet (e.books ref.sym) ref.side ref.price

/-- In-place mutation through a level pointer. -/
def modifyLevel (e : Engine) (ref : LevelRef) (f : PriceLevel → PriceLevel) : Engine :=
  modifyBook e ref.sym (fun b => levelSet b ref.side ref.price (f (levelGet b ref.side ref.price)))

/-- `Engine.unlink(level, orderID)`: splice the order out of the doubly-linked
list of `ref`, clear its links, decrement the level count (uint32 wrap). -/
def unlinkE (e : Engine) (ref : LevelRef) (id : Nat) : Engine :=
  let slot := e.orderIndex id
  let o := e.orders slot
  let e1 := if o.prev ≠ 0 then
      modifyOrder e (e.orderIndex o.prev) (fun x => { x with next := o.next })
    else
      modifyLevel e ref (fun l => { l with head := o.next })
  let e2 := if o.next ≠ 0 then
      modifyOrder e1 (e1.orderIndex o.next) (fun x => { x with prev := o.prev })
    else
      modifyLevel e1 ref (fun l => { l with tail := o.prev })
  let e3 := modifyOrder e2 slot (fun x => { x with next := 0 })
  let e4 := modifyOrder e3 slot (fun x => { x with prev := 0 })
  modifyLevel e4 ref (fun l => { l with size := (l.size + U32 - 1) % U32 })

/-- Scan of `updateBestBid`: walk downward from `p`, return the first tick
with a non-empty level, else `0`. -/
def scanBidFrom (levels : Nat → PriceLevel) : Nat → Nat
  | 0 => 0
  | p + 1 => if (levels (p + 1)).size ≠ 0 then p + 1 else scanBidFrom levels p

/-- Scan of `updateBestAsk`: walk upward from `p` for at most `k` ticks,
return the first tick with a non-empty level, else `MAX_PRICE_LEVELS`.
Callers pass `k = MAX_PRICE_LEVELS - p`, so the walk stops exactly at
`MAX_PRICE_LEVELS` as in the Go loop. -/
def scanAskFrom (levels : Nat → PriceLevel) : Nat → Nat → Nat
  | _, 0 => MAX_PRICE_LEVELS
  | p, k + 1 => if (levels p).size ≠ 0 then p else scanAskFrom levels (p + 1) k

/-- `OrderBook.updateBestBid`. -/
def updateBestBidB (b : OrderBook) : OrderBook :=
  { b with bidMax := scanBidFrom b.bidLevels b.bidMax }

/-- `OrderBook.updateBestAsk`. -/
def updateBestAskB (b : OrderBook) : OrderBook :=
  { b with askMin := scanAskFrom b.askLevels b.askMin (MAX_PRICE_LEVELS - b.askMin) }

/-- One iteration of the `matchLevel` loop body: emit the execution event,
decrement both sizes, unlink the resting order if fully filled.  Returns the
new state, the saved `nextID`, and the new `remaining`. -/
def matchLevelStep (e : Engine) (ref : LevelRef) (cur rem price oSym oTrader oID : Nat) :
    Engine × Nat × Nat :=
  let slot := e.orderIndex cur
  let co := e.orders slot
  let nextID := co.next
  let fill := min rem co.size
  let e1 := pushEvent e
    { type := EventType.execution, orderID := oID, price := price, size := fill
      trader := oTrader, symbol := oSym, side := Side.Bid, counterOrderID := cur }
  let e2 := modifyOrder e1 slot (fun x => { x with size := x.size - fill })
  let e3 := if (e2.orders slot).size = 0 then unlinkE e2 ref cur else e2
  (e3, nextID, rem - fill)

/-- `Engine.matchLevel`: consume the FIFO chain starting at `cur` while the
aggressor has remaining size.  `none` models a Go execution that never exits
the loop (possible only on a corrupted chain). -/
def matchLevelLoop : Nat → Engine → LevelRef → Nat → Nat → Nat → Nat → Nat → Nat →
    Option (Engine × Nat)
  | 0, _, _, _, _, _, _, _, _ => none
  | fuel + 1, e, ref, cur, rem, price, oSym, oTrader, oID =>
    if cur ≠ 0 ∧ rem ≠ 0 then
      let r := matchLevelStep e ref cur rem price oSym oTrader oID
      matchLevelLoop fuel r.1 ref r.2.1 r.2.2 price oSym oTrader oID
    else
      some (e, rem)

/-- The `Bid` loop of `Engine.match`: sweep ask levels upward from `askMin`. -/
def matchBidLoop : Nat → Engine → Nat → Nat → Nat → Nat → Nat → Option (Engine × Nat)
  | 0, _, _, _, _, _, _ => none
  | fuel + 1, e, sym, oPrice, rem, oTrader, oID =>
    let b := e.books sym
    if rem ≠ 0 ∧ b.askMin < MAX_PRICE_LEVELS ∧ b.askMin ≤ oPrice then
      let ref : LevelRef := { sym := sym, side := Side.Ask, price := b.askMin }
      match matchLevelLoop (fuel + 1) e ref (getLevel e ref).head rem b.askMin sym oTrader oID with
      | none => none
      | some (e1, rem1) =>
        let e2 := if rem1 ≠ 0 then modifyBook e1 sym updateBestAskB else e1
        matchBidLoop fuel e2 sym oPrice rem1 oTrader oID
    else
      some (e, rem)

/-- The `Ask` loop of `Engine.match`: sweep bid levels downward from `bidMax`. -/
def matchAskLoop : Nat → Engine → Nat → Nat → Nat → Nat → Nat → Option (Engine × Nat)
  | 0, _, _, _, _, _, _ => none
  | fuel + 1, e, sym, oPrice, rem, oTrader, oID =>
    let b := e.books sym
    if rem ≠ 0 ∧ 0 < b.bidMax ∧ oPrice ≤ b.bidMax then
      let ref : LevelRef := { sym := sym, side := Side.Bid, price := b.bidMax }
      match matchLevelLoop (fuel + 1) e ref (getLevel e ref).head rem b.bidMax sym oTrader oID with
      | none => none
      | some (e1, rem1) =>
        let e2 := if rem1 ≠ 0 then modifyBook e1 sym updateBestBidB else e1
        matchAskLoop fuel e2 sym oPrice rem1 oTrader oID
    else
      some (e, rem)

/-- `Engine.match`. -/
def matchE (fuel : Nat) (e : Engine) (sym : Nat) (oSide : Side) (oPrice rem oTrader oID : Nat) :
    Option (Engine × Nat) :=
  match oSide with
  | Side.Bid => matchBidLoop fuel e sym oPrice rem oTrader oID
  | Side.Ask => matchAskLoop fuel e sym oPrice rem oTrader oID

/-- `Engine.addToBook`: raise the best-price cursor if the new price improves
it, link the order at the tail of its level, write the record into its slot,
bump the level count. -/
def addToBookE (e : Engine) (sym : Nat) (oSide : Side) (oPrice rem oID : Nat) : Engine :=
  let ref : LevelRef := { sym := sym, side := oSide, price := oPrice }
  let e1 :=
    match oSide with
    | Side.Bid =>
      if (e.books sym).bidMax < oPrice then
        modifyBook e sym (fun b => { b with bidMax := oPrice }) else e
    | Side.Ask =>
      if oPrice < (e.books sym).askMin then
        modifyBook e sym (fun b => { b with askMin := oPrice }) else e
  let lv := getLevel e1 ref
  if lv.head = 0 then
    let e2 := modifyLevel e1 ref (fun l => { l with head := oID })
    let e3 := modifyLevel e2 ref (fun l => { l with tail := oID })
    let slot := e3.orderIndex oID
    let e4 := modifyOrder e3 slot (fun _ => { prev := 0, next := 0, level := some ref, size := rem })
    modifyLevel e4 ref (fun l => { l with size := (l.size + 1) % U32 })
  else
    let tailSlot := e1.orderIndex lv.tail
    let e2 := modifyOrder e1 tailSlot (fun x => { x with next := oID })
    let e3 := modifyLevel e2 ref (fun l => { l with tail := oID })
    let slot := e3.orderIndex oID
    let e4 := modifyOrder e3 slot (fun _ => { prev := lv.tail, next := 0, level := some ref, size := rem })
    modifyLevel e4 ref (fun l => { l with size := (l.size + 1) % U32 })

/-- The slot-allocation step of `Engine.Limit`: pop a recycled slot from the
freelist if it is non-empty, else use the fresh order id (already incremented)
as the slot. -/
def allocSlot (e : Engine) : Engine × Nat :=
  if e.freeHead ≠ e.freeTail then
    ({ e with freeHead := (e.freeHead + 1) % U32 }, e.freeSlots (e.freeHead &&& FREE_MASK))
  else
    (e, e.orderID)

/-- The accepted-path prelude of `Engine.Limit`: increment the id generator,
allocate a slot, publish the id→slot mapping, and emit the `ORDER_EVENT`.
Returns the updated engine and the new order id. -/
def limitSetup (e : Engine) (symbol : Nat) (side : Side) (price size trader : Nat) :
    Engine × Nat :=
  let e1 := { e with orderID := (e.orderID + 1) % U32 }
  let newID := e1.orderID
  let pick := allocSlot e1
  let e3 := { pick.1 with orderIndex := upd pick.1.orderIndex newID pick.2 }
  (pushEvent e3
    { type := EventType.order, orderID := newID, price := price, size := size
      trader := trader, symbol := symbol, side := side, counterOrderID := 0 }, newID)

/-- `Engine.Limit`. -/
def LimitE (fuel : Nat) (e : Engine) (symbol : Nat) (side : Side) (price size trader : Nat) :
    Option Engine :=
  if price = 0 ∨ size = 0 ∨ MAX_PRICE_LEVELS ≤ price then
    some (pushEvent e { zeroEvent with type := EventType.reject })
  else
    let su := limitSetup e symbol side price size trader
    match matchE fuel su.1 symbol side price size trader su.2 with
    | none => none
    | some (e5, rem) =>
      if rem ≠ 0 then some (addToBookE e5 symbol side price rem su.2) else some e5

/-- `Engine.Cancel`.  `none` models the nil-pointer dereference that Go would
hit if a live-looking order had no level pointer (unreachable from sane
states). -/
def CancelE (e : Engine) (orderID : Nat) : Option Engine :=
  if orderID = 0 ∨ e.orderID < orderID then
    some (pushEvent e { zeroEvent with type := EventType.reject })
  else
    let slot := e.orderIndex orderID
    let o := e.orders slot
    if o.size = 0 then
      some (pushEvent e { zeroEvent with type := EventType.reject })
    else
      match o.level with
      | none => none
      | some ref =>
        let e1 := unlinkE e ref orderID
        let e2 := modifyOrder e1 slot (fun x => { x with size := 0 })
        let nextTail := (e2.freeTail + 1) &&& FREE_MASK
        let e3 := if nextTail ≠ (e2.freeHead &&& FREE_MASK) then
            { e2 with freeSlots := upd e2.freeSlots (e2.freeTail &&& FREE_MASK) slot
                      freeTail := (e2.freeTail + 1) % U32 }
          else e2
        some (pushEvent e3 { zeroEvent with type := EventType.cancel, orderID := orderID })

/-- A command of the input stream. -/
inductive Cmd where
  | limit (symbol : Nat) (side : Side) (price size trader : Nat) : Cmd
  | cancel (id : Nat) : Cmd

/-- Dispatch one input command, as the input distributor does. -/
def stepCmd (fuel : Nat) (e : Engine) : Cmd → Option Engine
  | Cmd.limit symbol side price size trader => LimitE fuel e symbol side price size trader
  | Cmd.cancel id => CancelE e id

/-- Run a command list from a given state. -/
def runFrom (fuel : Nat) : Engine → List Cmd → Option Engine
  | e, [] => some e
  | e, c :: cs =>
    match stepCmd fuel e c with
    | none => none
    | some e1 => runFrom fuel e1 cs

/-- Run a command list from a fresh engine. -/
def runEngine (fuel : Nat) (cmds : List Cmd) : Option Engine :=
  runFrom fuel newEngine cmds

/-! ### The SPSC ring buffer (C8, C10) -/

/-- Go `RingBuffer[T]`: a fixed buffer (its allocated length is recorded) and
two free-running `uint64` cursors. -/
structure RingBuffer (T : Type) where
  bufLen : Nat
  buffer : Nat → T
  writePos : Nat
  readPos : Nat

/-- `NewRingBuffer[T](size)`: `make([]T, size)` of zero values, cursors 0. -/
def ringNew (T : Type) [Inhabited T] (size : Nat) : RingBuffer T :=
  { bufLen := size, buffer := fun _ => default, writePos := 0, readPos := 0 }

/-- The buffer index accessed by `Push`: `writePos & RING_MASK`. -/
def pushIndex {T : Type} (r : RingBuffer T) : Nat :=
  r.writePos &&& RING_MASK

/-- The buffer index accessed by `Read` for the `i`-th copied element:
`(readPos + i) & RING_MASK`. -/
def readIndex {T : Type} (r : RingBuffer T) (i : Nat) : Nat :=
  (r.readPos + i) &&& RING_MASK

/-- `write - read` in `uint64` arithmetic: the available element count. -/
def ringAvail {T : Type} (r : RingBuffer T) : Nat :=
  (r.writePos + U64 - r.readPos) % U64

/-- `RingBuffer.Push`: store at the masked write index and advance the write
cursor; `none` models the spin when the ring is full. -/
def ringPush {T : Type} (r : RingBuffer T) (v : T) : Option (RingBuffer T) :=
  if ringAvail r < RING_SIZE then
    some { r with buffer := upd r.buffer (pushIndex r) v, writePos := (r.writePos + 1) % U64 }
  else
    none

/-- `RingBuffer.Read`: copy `min(available, len(out))` elements from the
masked read positions, advance the read cursor, return the batch; `none`
models the spin when the ring is empty. -/
def ringRead {T : Type} (r : RingBuffer T) (outLen : Nat) : Option (RingBuffer T × List T) :=
  if ringAvail r = 0 then
    none
  else
    let count := min (ringAvail r) outLen
    some ({ r with readPos := (r.readPos + count) % U64 },
      (List.range count).map fun i => r.buffer (readIndex r i))

/-- One producer/consumer action on a ring. -/
inductive ROp (T : Type) where
  | push (v : T) : ROp T
  | read (outLen : Nat) : ROp T

/-- Run a linearised sequence of pushes and reads, accumulating the
concatenation of all read batches. -/
def runRing {T : Type} : List (ROp T) → RingBuffer T → List T → Option (RingBuffer T × List T)
  | [], r, outs => some (r, outs)
  | ROp.push v :: ops, r, outs =>
    match ringPush r v with
    | none => none
    | some r1 => runRing ops r1 outs
  | ROp.read n :: ops, r, outs =>
    match ringRead r n with
    | none => none
    | some (r1, l) => runRing ops r1 (outs ++ l)

/-- The elements pushed by an action sequence, in push order. -/
def pushedOf {T : Type} : List (ROp T) → List T
  | [] => []
  | ROp.push v :: ops => v :: pushedOf ops
  | ROp.read _ :: ops => pushedOf ops

/-- The invariant tying a ring to the streams already pushed and read:
cursors are the (wrapped) stream lengths, the consumed stream is the
corresponding push-stream prefix, and the unread elements sit at their masked
positions in the buffer. -/
def RingInv {T : Type} [Inhabited T] (r : RingBuffer T) (pushed outs : List T) : Prop :=
  outs.length ≤ pushed.length ∧
  pushed.length - outs.length ≤ RING_SIZE ∧
  r.writePos = pushed.length % U64 ∧
  r.readPos = outs.length % U64 ∧
  outs = pushed.take outs.length ∧
  ∀ i, outs.length ≤ i → i < pushed.length →
    r.buffer (i % RING_SIZE) = pushed.getD i default

/-- The ring with one pushed element used by the C8 counterexample. -/
def c8cexRing : RingBuffer Nat :=
  (ringPush (ringNew Nat RING_SIZE) 7).getD (ringNew Nat RING_SIZE)

/-- The action sequence of the C8 witness. -/
def c8wOps : List (ROp Nat) :=
  [ROp.push 10, ROp.push 20, ROp.read 1, ROp.push 30, ROp.read 5]

/-- The run of the C8 witness. -/
def c8wRun : RingBuffer Nat × List Nat :=
  (runRing c8wOps (ringNew Nat RING_SIZE) []).getD (ringNew Nat RING_SIZE, [])

/-- The out-of-bounds scenario of C10: a ring constructed with size 1 (not
`RING_SIZE`) after one push; the next push's masked index escapes the
allocated buffer. -/
def c10oob : RingBuffer Nat :=
  (ringPush (ringNew Nat 1) 7).getD (ringNew Nat 1)

/-! ### The no-cross invariant (C5) -/

/-- The cursor form of the no-cross property of one book. -/
def BookNoCross (b : OrderBook) : Prop :=
  b.bidMax = 0 ∨ b.askMin = MAX_PRICE_LEVELS ∨ b.bidMax < b.askMin

/-- The inductive engine invariant: for every book the ask cursor is within
range and the book is not crossed. -/
def EngInv (e : Engine) : Prop :=
  ∀ s, (e.books s).askMin ≤ MAX_PRICE_LEVELS ∧ BookNoCross (e.books s)

/-! ### Concrete runs used by the individual claims -/

/-- C1 scenario: order 1 is cancelled (its slot enters the freelist), order 2
reuses the slot, then a second — stale — `Cancel 1` arrives. -/
def c1cmds : List Cmd :=
  [Cmd.limit 0 Side.Bid 100 5 1, Cmd.cancel 1, Cmd.limit 0 Side.Bid 100 7 2, Cmd.cancel 1]

/-- State after the first three commands of the C1 scenario. -/
def c1mid : Engine := (runEngine 50 (c1cmds.take 3)).getD newEngine

/-- State after the whole C1 scenario. -/
def c1res : Engine := (runEngine 50 c1cmds).getD newEngine

/-- C2 scenario: a resting ask is fully filled by an aggressing bid. -/
def c2cmds : List Cmd := [Cmd.limit 0 Side.Ask 100 5 1, Cmd.limit 0 Side.Bid 100 5 2]

/-- State after the C2 scenario. -/
def c2res : Engine := (runEngine 50 c2cmds).getD newEngine

/-- C3 scenario: a resting bid, then an aggressing ask; the execution event is
produced for an `Ask` aggressor. -/
def c3cmds : List Cmd := [Cmd.limit 0 Side.Bid 100 5 1, Cmd.limit 0 Side.Ask 100 5 2]

/-- State after the C3 scenario. -/
def c3res : Engine := (runEngine 50 c3cmds).getD newEngine

/-- The execution event of the C3 scenario. -/
def c3ev : OutputEvent := c3res.events.getD 2 zeroEvent

/-- C4 scenario: a lone bid is cancelled, emptying the best (and only) bid
level. -/
def c4cmds : List Cmd := [Cmd.limit 0 Side.Bid 100 5 1, Cmd.cancel 1]

/-- State after the C4 scenario. -/
def c4res : Engine := (runEngine 50 c4cmds).getD newEngine

/-- Spec scenario 2 (the C7 input): two resting asks swept by one bid. -/
def s2cmds : List Cmd :=
  [Cmd.limit 0 Side.Ask 101 5 1, Cmd.limit 0 Side.Ask 102 5 1, Cmd.limit 0 Side.Bid 102 8 2]

/-- State after spec scenario 2. -/
def s2res : Engine := (runEngine 50 s2cmds).getD newEngine

/-! ### Formalisation of the best-price exactness predicate of C4 -/

/-- `bid_max` equals the maximum price with a non-empty bid level, or `0` if
none (the property C4 asserts of every quiescent state). -/
def bidMaxExact (b : OrderBook) : Prop :=
  (b.bidMax = 0 ∨ (b.bidLevels b.bidMax).size ≠ 0) ∧
  ∀ p, p < MAX_PRICE_LEVELS → (b.bidLevels p).size ≠ 0 → p ≤ b.bidMax

/-- `ask_min` equals the minimum price with a non-empty ask level, or
`MAX_PRICE_LEVELS` if none. -/
def askMinExact (b : OrderBook) : Prop :=
  (b.askMin = MAX_PRICE_LEVELS ∨ (b.askLevels b.askMin).size ≠ 0) ∧
  ∀ p, p < MAX_PRICE_LEVELS → (b.askLevels p).size ≠ 0 → b.askMin ≤ p

/-! ### Theorems -/

@[simp] theorem upd_same {α : Type} (f : Nat → α) (i : Nat) (v : α) :
    upd f i v i = v := by simp [upd]

theorem upd_ne {α : Type} (f : Nat → α) (i j : Nat) (v : α) (h : j ≠ i) :
    upd f i v j = f j := by simp [upd, h]

/-! ### Claim theorems on the concrete runs -/

/-- C1: the claim says a stale `Cancel(id)` for a terminal id whose slot was
reused finds a zero `order_index` mapping, emits `REJECT_EVENT`, and never
zeroes another order.  The code never clears `order_index`, so the stale
`Cancel 1` in the C1 scenario finds the reused slot, emits a `CANCEL_EVENT`
(not a reject), and unlinks and zeroes live order 2: before the stale cancel
order 2 rests with size 7 at bid level 100; afterwards its record has size 0
and the level is empty. -/
theorem c1_stale_cancel_kills_reused_slot :
    (runEngine 50 c1cmds).isSome = true ∧
    (c1mid.orders (c1mid.orderIndex 2)).size = 7 ∧
    ((c1mid.books 0).bidLevels 100).head = 2 ∧
    c1res.events.getD 3 zeroEvent = { zeroEvent with type := EventType.cancel, orderID := 1 } ∧
    (c1res.events.getD 3 zeroEvent).type ≠ EventType.reject ∧
    c1res.orderIndex 1 = c1res.orderIndex 2 ∧
    (c1res.orders (c1res.orderIndex 2)).size = 0 ∧
    ((c1res.books 0).bidLevels 100).head = 0 := by
  refine ⟨by decide, by decide, by decide, by decide, by decide, by decide, by decide, by decide⟩

/-- C2: the claim says every non-zero `order_index[id]` points to a live order
of positive size, and that a full fill during matching releases the slot and
sets `order_index[resting_id] = 0`.  After the C2 scenario the fully filled
resting order 1 still has `order_index[1] = 1` while `orders[1].size = 0`,
and its slot was not offered to the freelist (`freeHead = freeTail = 0`). -/
theorem c2_full_fill_leaves_stale_index :
    (runEngine 50 c2cmds).isSome = true ∧
    c2res.orderIndex 1 = 1 ∧
    (c2res.orders 1).size = 0 ∧
    c2res.freeHead = 0 ∧
    c2res.freeTail = 0 := by
  refine ⟨by decide, by decide, by decide, by decide, by decide⟩

/-- C3 counterexample: in the C3 scenario the aggressor (order 2) has side
`Ask`, but the execution event it produces carries side `Bid` — the Go
composite literal never sets `Side`, so the field is the zero value. -/
theorem c3_execution_side_is_zero_value :
    (runEngine 50 c3cmds).isSome = true ∧
    c3res.events.getD 1 zeroEvent =
      { type := EventType.order, orderID := 2, price := 100, size := 5, trader := 2
        symbol := 0, side := Side.Ask, counterOrderID := 0 } ∧
    c3ev.type = EventType.execution ∧
    c3ev.orderID = 2 ∧
    c3ev.counterOrderID = 1 ∧
    c3ev.side = Side.Bid ∧
    Side.Bid ≠ Side.Ask := by
  refine ⟨by decide, by decide, by decide, by decide, by decide, by decide, by decide⟩

/-- C4 counterexample: after the C4 scenario (a cancel empties the best and
only bid level) the book still has `bid_max = 100` although no bid level is
non-empty, so the claimed best-price exactness fails at quiescence. -/
theorem c4_cancel_leaves_stale_cursor :
    (runEngine 50 c4cmds).isSome = true ∧ ¬ bidMaxExact (c4res.books 0) := by
  refine ⟨by decide, ?_⟩
  intro h
  rcases h.1 with h0 | hne
  · exact absurd h0 (by decide)
  · exact hne (by decide)

/-- C7: spec scenario 2 — the run emits exactly the five claimed events in
order, and leaves the ask level at 102 holding exactly one order (order 2)
of size 2, with `ask_min = 102` and `bid_max = 0`. -/
theorem c7_scenario_two_exact :
    (runEngine 50 s2cmds).isSome = true ∧
    s2res.events =
      [{ type := EventType.order, orderID := 1, price := 101, size := 5, trader := 1
         symbol := 0, side := Side.Ask, counterOrderID := 0 },
       { type := EventType.order, orderID := 2, price := 102, size := 5, trader := 1
         symbol := 0, side := Side.Ask, counterOrderID := 0 },
       { type := EventType.order, orderID := 3, price := 102, size := 8, trader := 2
         symbol := 0, side := Side.Bid, counterOrderID := 0 },
       { type := EventType.execution, orderID := 3, price := 101, size := 5, trader := 2
         symbol := 0, side := Side.Bid, counterOrderID := 1 },
       { type := EventType.execution, orderID := 3, price := 102, size := 3, trader := 2
         symbol := 0, side := Side.Bid, counterOrderID := 2 }] ∧
    (s2res.books 0).askMin = 102 ∧
    (s2res.books 0).bidMax = 0 ∧
    ((s2res.books 0).askLevels 102).size = 1 ∧
    ((s2res.books 0).askLevels 102).head = 2 ∧
    ((s2res.books 0).askLevels 102).tail = 2 ∧
    (s2res.orders (s2res.orderIndex 2)).size = 2 := by
  refine ⟨by decide, by decide, by decide, by decide, by decide, by decide, by decide, by decide⟩

/-! ### Projection lemmas for the primitive state operations -/

@[simp] theorem pushEvent_books (e : Engine) (ev : OutputEvent) :
    (pushEvent e ev).books = e.books := rfl

@[simp] theorem pushEvent_events (e : Engine) (ev : OutputEvent) :
    (pushEvent e ev).events = e.events ++ [ev] := rfl

@[simp] theorem modifyOrder_books (e : Engine) (s : Nat) (f : Order → Order) :
    (modifyOrder e s f).books = e.books := rfl

@[simp] theorem modifyOrder_events (e : Engine) (s : Nat) (f : Order → Order) :
    (modifyOrder e s f).events = e.events := rfl

@[simp] theorem modifyBook_events (e : Engine) (s : Nat) (f : OrderBook → OrderBook) :
    (modifyBook e s f).events = e.events := rfl

@[simp] theorem modifyLevel_events (e : Engine) (r : LevelRef) (f : PriceLevel → PriceLevel) :
    (modifyLevel e r f).events = e.events := rfl

@[simp] theorem allocSlot_events (e : Engine) : (allocSlot e).1.events = e.events := by
  unfold allocSlot
  split_ifs <;> rfl

@[simp] theorem allocSlot_books (e : Engine) : (allocSlot e).1.books = e.books := by
  unfold allocSlot
  split_ifs <;> rfl

theorem unlinkE_events (e : Engine) (ref : LevelRef) (id : Nat) :
    (unlinkE e ref id).events = e.events := by
  unfold unlinkE
  dsimp only
  split_ifs <;> simp

theorem addToBookE_events (e : Engine) (sym : Nat) (oSide : Side) (oPrice rem oID : Nat) :
    (addToBookE e sym oSide oPrice rem oID).events = e.events := by
  unfold addToBookE
  cases oSide <;> dsimp only <;> split_ifs <;> simp

/-! ### Event-trace lemmas for the matching loops -/

/-- The single loop iteration of `matchLevel` appends exactly one event: an
execution carrying the aggressor id, the level price, the fill
`min(remaining, resting size)`, the aggressor trader and symbol, the resting
id as counter id, and — because the Go literal leaves `Side` unset — the zero
side `Bid`. -/
theorem matchLevelStep_events (e : Engine) (ref : LevelRef) (cur rem price oSym oTrader oID : Nat) :
    (matchLevelStep e ref cur rem price oSym oTrader oID).1.events =
      e.events ++
        [{ type := EventType.execution, orderID := oID, price := price
           size := min rem ((e.orders (e.orderIndex cur)).size)
           trader := oTrader, symbol := oSym, side := Side.Bid, counterOrderID := cur }] := by
  unfold matchLevelStep
  dsimp only
  split_ifs <;> simp [unlinkE_events]

theorem matchLevelLoop_events (ref : LevelRef) (price oSym oTrader oID : Nat) :
    ∀ fuel e cur rem e2 rem2,
      matchLevelLoop fuel e ref cur rem price oSym oTrader oID = some (e2, rem2) →
      ∃ l, e2.events = e.events ++ l ∧
        ∀ ev ∈ l, ev.type = EventType.execution ∧ ev.orderID = oID ∧ ev.price = price ∧
          ev.trader = oTrader ∧ ev.symbol = oSym ∧ ev.side = Side.Bid := by
  intro fuel
  induction fuel with
  | zero =>
    intro e cur rem e2 rem2 h
    exact absurd h (by simp [matchLevelLoop])
  | succ fuel ih =>
    intro e cur rem e2 rem2 h
    rw [matchLevelLoop] at h
    split at h
    · obtain ⟨l1, hl1, hp1⟩ := ih _ _ _ _ _ h
      rw [matchLevelStep_events] at hl1
      refine ⟨_ :: l1, by simpa using hl1, ?_⟩
      intro ev hev
      rcases List.mem_cons.mp hev with hev | hev
      · subst hev; exact ⟨rfl, rfl, rfl, rfl, rfl, rfl⟩
      · exact hp1 ev hev
    · cases h
      exact ⟨[], by simp, by simp⟩

theorem matchBidLoop_events (sym oPrice oTrader oID : Nat) :
    ∀ fuel e rem e2 rem2,
      matchBidLoop fuel e sym oPrice rem oTrader oID = some (e2, rem2) →
      ∃ l, e2.events = e.events ++ l ∧
        ∀ ev ∈ l, ev.type = EventType.execution ∧ ev.orderID = oID ∧
          ev.trader = oTrader ∧ ev.symbol = sym ∧ ev.side = Side.Bid := by
  intro fuel
  induction fuel with
  | zero =>
    intro e rem e2 rem2 h
    exact absurd h (by simp [matchBidLoop])
  | succ fuel ih =>
    intro e rem e2 rem2 h
    rw [matchBidLoop] at h
    split at h
    · dsimp only at h
      split at h
      · exact absurd h (by simp)
      · next e1 rem1 heq =>
        obtain ⟨l2, hl2, hp2⟩ := ih _ _ _ _ h
        obtain ⟨l1, hl1, hp1⟩ := matchLevelLoop_events _ _ _ _ _ _ _ _ _ _ _ heq
        by_cases hrem : rem1 ≠ 0
        · rw [if_pos hrem, modifyBook_events] at hl2
          refine ⟨l1 ++ l2, by simp [hl2, hl1], ?_⟩
          intro ev hev
          rcases List.mem_append.mp hev with hev | hev
          · obtain ⟨h1, h2, _, h4, h5, h6⟩ := hp1 ev hev
            exact ⟨h1, h2, h4, h5, h6⟩
          · exact hp2 ev hev
        · rw [if_neg hrem] at hl2
          refine ⟨l1 ++ l2, by simp [hl2, hl1], ?_⟩
          intro ev hev
          rcases List.mem_append.mp hev with hev | hev
          · obtain ⟨h1, h2, _, h4, h5, h6⟩ := hp1 ev hev
            exact ⟨h1, h2, h4, h5, h6⟩
          · exact hp2 ev hev
    · cases h
      exact ⟨[], by simp, by simp⟩

theorem matchAskLoop_events (sym oPrice oTrader oID : Nat) :
    ∀ fuel e rem e2 rem2,
      matchAskLoop fuel e sym oPrice rem oTrader oID = some (e2, rem2) →
      ∃ l, e2.events = e.events ++ l ∧
        ∀ ev ∈ l, ev.type = EventType.execution ∧ ev.orderID = oID ∧
          ev.trader = oTrader ∧ ev.symbol = sym ∧ ev.side = Side.Bid := by
  intro fuel
  induction fuel with
  | zero =>
    intro e rem e2 rem2 h
    exact absurd h (by simp [matchAskLoop])
  | succ fuel ih =>
    intro e rem e2 rem2 h
    rw [matchAskLoop] at h
    split at h
    · dsimp only at h
      split at h
      · exact absurd h (by simp)
      · next e1 rem1 heq =>
        obtain ⟨l2, hl2, hp2⟩ := ih _ _ _ _ h
        obtain ⟨l1, hl1, hp1⟩ := matchLevelLoop_events _ _ _ _ _ _ _ _ _ _ _ heq
        by_cases hrem : rem1 ≠ 0
        · rw [if_pos hrem, modifyBook_events] at hl2
          refine ⟨l1 ++ l2, by simp [hl2, hl1], ?_⟩
          intro ev hev
          rcases List.mem_append.mp hev with hev | hev
          · obtain ⟨h1, h2, _, h4, h5, h6⟩ := hp1 ev hev
            exact ⟨h1, h2, h4, h5, h6⟩
          · exact hp2 ev hev
        · rw [if_neg hrem] at hl2
          refine ⟨l1 ++ l2, by simp [hl2, hl1], ?_⟩
          intro ev hev
          rcases List.mem_append.mp hev with hev | hev
          · obtain ⟨h1, h2, _, h4, h5, h6⟩ := hp1 ev hev
            exact ⟨h1, h2, h4, h5, h6⟩
          · exact hp2 ev hev
    · cases h
      exact ⟨[], by simp, by simp⟩

theorem matchE_events (fuel : Nat) (e : Engine) (sym : Nat) (oSide : Side)
    (oPrice rem oTrader oID : Nat) (e2 : Engine) (rem2 : Nat)
    (h : matchE fuel e sym oSide oPrice rem oTrader oID = some (e2, rem2)) :
    ∃ l, e2.events = e.events ++ l ∧ ∀ ev ∈ l, ev.type = EventType.execution := by
  cases oSide with
  | Bid =>
    obtain ⟨l, hl, hp⟩ := matchBidLoop_events _ _ _ _ _ _ _ _ _ h
    exact ⟨l, hl, fun ev hev => (hp ev hev).1⟩
  | Ask =>
    obtain ⟨l, hl, hp⟩ := matchAskLoop_events _ _ _ _ _ _ _ _ _ h
    exact ⟨l, hl, fun ev hev => (hp ev hev).1⟩

theorem limitSetup_events (e : Engine) (symbol : Nat) (sd : Side) (price size trader : Nat) :
    (limitSetup e symbol sd price size trader).1.events =
      e.events ++
        [{ type := EventType.order, orderID := (e.orderID + 1) % U32, price := price
           size := size, trader := trader, symbol := symbol, side := sd
           counterOrderID := 0 }] := by
  unfold limitSetup
  dsimp only
  rw [pushEvent_events]
  dsimp only
  rw [allocSlot_events]

theorem limitSetup_books (e : Engine) (symbol : Nat) (sd : Side) (price size trader : Nat) :
    (limitSetup e symbol sd price size trader).1.books = e.books := by
  unfold limitSetup
  dsimp only
  rw [pushEvent_books]
  dsimp only
  rw [allocSlot_books]

/-- On the accepted path, `Limit` appends one `ORDER_EVENT` followed only by
execution events. -/
theorem LimitE_some_events (fuel : Nat) (e : Engine) (symbol : Nat) (sd : Side)
    (price size trader : Nat) (e1 : Engine)
    (hv : ¬(price = 0 ∨ size = 0 ∨ MAX_PRICE_LEVELS ≤ price))
    (h : LimitE fuel e symbol sd price size trader = some e1) :
    ∃ l, e1.events =
        e.events ++
          ({ type := EventType.order, orderID := (e.orderID + 1) % U32, price := price
             size := size, trader := trader, symbol := symbol, side := sd
             counterOrderID := 0 } :: l) ∧
      ∀ ev ∈ l, ev.type = EventType.execution := by
  rw [LimitE, if_neg hv] at h
  dsimp only at h
  split at h
  · exact absurd h (by simp)
  · next e5 rem heq =>
    obtain ⟨l, hl, hp⟩ := matchE_events _ _ _ _ _ _ _ _ _ _ heq
    rw [limitSetup_events] at hl
    split at h
    · cases h
      refine ⟨l, ?_, hp⟩
      simp [addToBookE_events, hl]
    · cases h
      exact ⟨l, by simp [hl], hp⟩

/-- Indexing into an appended event trace: any position past the base trace
satisfies a predicate that all appended events satisfy. -/
theorem getD_append_pred (P : OutputEvent → Prop) (l1 l2 : List OutputEvent) (i : Nat)
    (hp : ∀ ev ∈ l2, P ev) (h1 : l1.length ≤ i) (h2 : i < (l1 ++ l2).length) :
    P ((l1 ++ l2).getD i zeroEvent) := by
  rw [List.getD_append_right l1 l2 zeroEvent i h1]
  have hk : i - l1.length < l2.length := by
    simp only [List.length_append] at h2
    omega
  rw [List.getD_eq_getElem l2 zeroEvent hk]
  exact hp _ (List.getElem_mem hk)

/-- C6: `Limit` with `price = 0`, `size = 0`, or `price ≥ MAX_PRICE_LEVELS`
returns the unchanged engine with exactly one appended `REJECT_EVENT` (books,
pool, index, freelist and id generator untouched); on any other input that
returns, the prior trace is preserved and no appended event is a reject. -/
theorem c6_limit_validation (fuel : Nat) (e : Engine) (symbol : Nat) (sd : Side)
    (price size trader : Nat) (e1 : Engine) (i : Nat) :
    ((price = 0 ∨ size = 0 ∨ MAX_PRICE_LEVELS ≤ price) →
      LimitE fuel e symbol sd price size trader =
        some { e with events := e.events ++ [{ zeroEvent with type := EventType.reject }] }) ∧
    (¬(price = 0 ∨ size = 0 ∨ MAX_PRICE_LEVELS ≤ price) →
      LimitE fuel e symbol sd price size trader = some e1 →
      e1.events.take e.events.length = e.events ∧
      (e.events.length ≤ i → i < e1.events.length →
        (e1.events.getD i zeroEvent).type ≠ EventType.reject)) := by
  constructor
  · intro h
    rw [LimitE, if_pos h]
    rfl
  · intro hv h
    obtain ⟨l, hl, hp⟩ := LimitE_some_events fuel e symbol sd price size trader e1 hv h
    refine ⟨?_, ?_⟩
    · rw [hl]
      exact List.take_left e.events _
    · intro h1 h2
      rw [hl] at h2 ⊢
      refine getD_append_pred (fun ev => ev.type ≠ EventType.reject) e.events _ i ?_ h1 h2
      intro ev hev
      rcases List.mem_cons.mp hev with hev | hev
      · subst hev
        simp
      · rw [hp ev hev]
        simp

/-- Witness for C6: concrete rejected and accepted `Limit` calls on a fresh
engine. -/
theorem c6_limit_validation_witness :
    (LimitE 5 newEngine 0 Side.Bid 0 5 1 =
      some { newEngine with
             events := newEngine.events ++ [{ zeroEvent with type := EventType.reject }] }) ∧
    ((LimitE 5 newEngine 0 Side.Bid 100 5 1).getD newEngine).events.take
        newEngine.events.length = newEngine.events ∧
    ((((LimitE 5 newEngine 0 Side.Bid 100 5 1).getD newEngine).events.getD 0 zeroEvent).type ≠
      EventType.reject) := by
  refine ⟨(c6_limit_validation 5 newEngine 0 Side.Bid 0 5 1 newEngine 0).1 (Or.inl rfl), ?_, ?_⟩
  · exact ((c6_limit_validation 5 newEngine 0 Side.Bid 100 5 1
      ((LimitE 5 newEngine 0 Side.Bid 100 5 1).getD newEngine) 0).2 (by decide) rfl).1
  · exact (((c6_limit_validation 5 newEngine 0 Side.Bid 100 5 1
      ((LimitE 5 newEngine 0 Side.Bid 100 5 1).getD newEngine) 0).2 (by decide) rfl).2
      (by decide) (by decide))

/-- C3 (amended): every execution event emitted during matching carries
`id` = aggressor id, `counter_id` = resting order id, `price` = the matched
level's price, `size` = `min(aggressor remaining, resting size)`, the
aggressor's trader id and the symbol; the `side` field, however, is never set
by the Go composite literal and is always the zero value `Bid`, regardless of
the aggressor's side.  Part one characterises the single event appended by one
`matchLevel` iteration; part two states the field invariants for every event
appended by a whole `matchLevel` run. -/
theorem c3_execution_event_fields
    (e : Engine) (ref : LevelRef) (cur rem price oSym oTrader oID : Nat)
    (fuel : Nat) (e0 : Engine) (cur0 rem0 : Nat) (e2 : Engine) (rem2 : Nat) (i : Nat)
    (h : matchLevelLoop fuel e0 ref cur0 rem0 price oSym oTrader oID = some (e2, rem2)) :
    (matchLevelStep e ref cur rem price oSym oTrader oID).1.events =
      e.events ++
        [{ type := EventType.execution, orderID := oID, price := price
           size := min rem ((e.orders (e.orderIndex cur)).size)
           trader := oTrader, symbol := oSym, side := Side.Bid, counterOrderID := cur }] ∧
    (e0.events.length ≤ i → i < e2.events.length →
      (e2.events.getD i zeroEvent).type = EventType.execution ∧
      (e2.events.getD i zeroEvent).orderID = oID ∧
      (e2.events.getD i zeroEvent).price = price ∧
      (e2.events.getD i zeroEvent).trader = oTrader ∧
      (e2.events.getD i zeroEvent).symbol = oSym ∧
      (e2.events.getD i zeroEvent).side = Side.Bid) := by
  refine ⟨matchLevelStep_events e ref cur rem price oSym oTrader oID, ?_⟩
  intro h1 h2
  obtain ⟨l, hl, hp⟩ := matchLevelLoop_events ref price oSym oTrader oID fuel e0 cur0 rem0 e2 rem2 h
  rw [hl] at h2 ⊢
  exact getD_append_pred
    (fun ev => ev.type = EventType.execution ∧ ev.orderID = oID ∧ ev.price = price ∧
      ev.trader = oTrader ∧ ev.symbol = oSym ∧ ev.side = Side.Bid)
    e0.events l i hp h1 h2

/-- Witness for the amended C3: a concrete `matchLevel` iteration and run. -/
theorem c3_execution_event_fields_witness :
    ((matchLevelStep newEngine { sym := 0, side := Side.Ask, price := 100 } 5 4 100 0 7 9).1.events =
      newEngine.events ++
        [{ type := EventType.execution, orderID := 9, price := 100
           size := min 4 ((newEngine.orders (newEngine.orderIndex 5)).size)
           trader := 7, symbol := 0, side := Side.Bid, counterOrderID := 5 }]) ∧
    ((((matchLevelLoop 2 newEngine { sym := 0, side := Side.Ask, price := 100 } 5 4 100 0 7 9).getD
        (newEngine, 0)).1.events.getD 0 zeroEvent).type = EventType.execution ∧
      (((matchLevelLoop 2 newEngine { sym := 0, side := Side.Ask, price := 100 } 5 4 100 0 7 9).getD
        (newEngine, 0)).1.events.getD 0 zeroEvent).side = Side.Bid) := by
  have t := c3_execution_event_fields newEngine { sym := 0, side := Side.Ask, price := 100 }
    5 4 100 0 7 9 2 newEngine 5 4
    ((matchLevelLoop 2 newEngine { sym := 0, side := Side.Ask, price := 100 } 5 4 100 0 7 9).getD
      (newEngine, 0)).1
    ((matchLevelLoop 2 newEngine { sym := 0, side := Side.Ask, price := 100 } 5 4 100 0 7 9).getD
      (newEngine, 0)).2
    0 rfl
  refine ⟨t.1, ?_, ?_⟩
  · exact (t.2 (by decide) (by decide)).1
  · exact (t.2 (by decide) (by decide)).2.2.2.2.2

/-! ### Cursor-preservation lemmas (for the no-cross invariant C5) -/

theorem modifyBook_books_same (e : Engine) (s : Nat) (f : OrderBook → OrderBook) :
    (modifyBook e s f).books s = f (e.books s) := by
  simp [modifyBook]

theorem modifyBook_books_ne {e : Engine} {s : Nat} {f : OrderBook → OrderBook} {t : Nat}
    (h : t ≠ s) : (modifyBook e s f).books t = e.books t := by
  simp [modifyBook, upd, h]

theorem levelSet_bidMax (b : OrderBook) (sd : Side) (p : Nat) (l : PriceLevel) :
    (levelSet b sd p l).bidMax = b.bidMax := by
  cases sd <;> rfl

theorem levelSet_askMin (b : OrderBook) (sd : Side) (p : Nat) (l : PriceLevel) :
    (levelSet b sd p l).askMin = b.askMin := by
  cases sd <;> rfl

theorem modifyLevel_books_ne {e : Engine} {r : LevelRef} {f : PriceLevel → PriceLevel} {t : Nat}
    (h : t ≠ r.sym) : (modifyLevel e r f).books t = e.books t :=
  modifyBook_books_ne h

theorem modifyLevel_bidMax (e : Engine) (r : LevelRef) (f : PriceLevel → PriceLevel) (s : Nat) :
    ((modifyLevel e r f).books s).bidMax = (e.books s).bidMax := by
  by_cases h : s = r.sym
  · subst h
    rw [modifyLevel, modifyBook_books_same, levelSet_bidMax]
  · rw [modifyLevel, modifyBook_books_ne h]

theorem modifyLevel_askMin (e : Engine) (r : LevelRef) (f : PriceLevel → PriceLevel) (s : Nat) :
    ((modifyLevel e r f).books s).askMin = (e.books s).askMin := by
  by_cases h : s = r.sym
  · subst h
    rw [modifyLevel, modifyBook_books_same, levelSet_askMin]
  · rw [modifyLevel, modifyBook_books_ne h]

theorem unlinkE_books_ne {e : Engine} {ref : LevelRef} {id : Nat} {t : Nat}
    (h : t ≠ ref.sym) : (unlinkE e ref id).books t = e.books t := by
  unfold unlinkE
  dsimp only
  split_ifs <;> simp [modifyLevel_books_ne h, modifyOrder_books]

theorem unlinkE_bidMax (e : Engine) (ref : LevelRef) (id : Nat) (s : Nat) :
    ((unlinkE e ref id).books s).bidMax = (e.books s).bidMax := by
  unfold unlinkE
  dsimp only
  split_ifs <;> simp [modifyLevel_bidMax, modifyOrder_books]

theorem unlinkE_askMin (e : Engine) (ref : LevelRef) (id : Nat) (s : Nat) :
    ((unlinkE e ref id).books s).askMin = (e.books s).askMin := by
  unfold unlinkE
  dsimp only
  split_ifs <;> simp [modifyLevel_askMin, modifyOrder_books]

theorem matchLevelStep_books (e : Engine) (ref : LevelRef) (cur rem price oSym oTrader oID : Nat) :
    (∀ t, t ≠ ref.sym →
      ((matchLevelStep e ref cur rem price oSym oTrader oID).1).books t = e.books t) ∧
    (∀ s, (((matchLevelStep e ref cur rem price oSym oTrader oID).1).books s).bidMax =
      (e.books s).bidMax) ∧
    (∀ s, (((matchLevelStep e ref cur rem price oSym oTrader oID).1).books s).askMin =
      (e.books s).askMin) := by
  refine ⟨?_, ?_, ?_⟩ <;> intro t
  · intro h
    unfold matchLevelStep
    dsimp only
    split_ifs <;> simp [unlinkE_books_ne h, modifyOrder_books, pushEvent_books]
  · unfold matchLevelStep
    dsimp only
    split_ifs <;> simp [unlinkE_bidMax, modifyOrder_books, pushEvent_books]
  · unfold matchLevelStep
    dsimp only
    split_ifs <;> simp [unlinkE_askMin, modifyOrder_books, pushEvent_books]

theorem matchLevelLoop_books (ref : LevelRef) (price oSym oTrader oID : Nat) :
    ∀ fuel e cur rem e2 rem2,
      matchLevelLoop fuel e ref cur rem price oSym oTrader oID = some (e2, rem2) →
      (∀ t, t ≠ ref.sym → e2.books t = e.books t) ∧
      (∀ s, (e2.books s).bidMax = (e.books s).bidMax) ∧
      (∀ s, (e2.books s).askMin = (e.books s).askMin) := by
  intro fuel
  induction fuel with
  | zero =>
    intro e cur rem e2 rem2 h
    exact absurd h (by simp [matchLevelLoop])
  | succ fuel ih =>
    intro e cur rem e2 rem2 h
    rw [matchLevelLoop] at h
    split at h
    · obtain ⟨g1, g2, g3⟩ := ih _ _ _ _ _ h
      obtain ⟨s1, s2, s3⟩ := matchLevelStep_books e ref cur rem price oSym oTrader oID
      refine ⟨?_, ?_, ?_⟩
      · intro t ht
        rw [g1 t ht, s1 t ht]
      · intro s
        rw [g2 s, s2 s]
      · intro s
        rw [g3 s, s3 s]
    · cases h
      exact ⟨fun _ _ => rfl, fun _ => rfl, fun _ => rfl⟩

theorem updateBestAskB_bidMax (b : OrderBook) : (updateBestAskB b).bidMax = b.bidMax := rfl

theorem updateBestBidB_askMin (b : OrderBook) : (updateBestBidB b).askMin = b.askMin := rfl

theorem scanBidFrom_le (L : Nat → PriceLevel) (p : Nat) : scanBidFrom L p ≤ p := by
  induction p with
  | zero => simp [scanBidFrom]
  | succ p ih =>
    rw [scanBidFrom]
    split
    · exact Nat.le_refl _
    · exact Nat.le_trans ih (Nat.le_succ p)

theorem scanBidFrom_found (L : Nat → PriceLevel) (p : Nat) :
    scanBidFrom L p = 0 ∨ (L (scanBidFrom L p)).size ≠ 0 := by
  induction p with
  | zero => exact Or.inl rfl
  | succ p ih =>
    rw [scanBidFrom]
    split
    · next h => exact Or.inr (by simpa using h)
    · exact ih

theorem scanBidFrom_ge (L : Nat → PriceLevel) (p q : Nat) (hq : q ≤ p)
    (h : (L q).size ≠ 0) : q ≤ scanBidFrom L p := by
  induction p with
  | zero => simpa [scanBidFrom] using hq
  | succ p ih =>
    rw [scanBidFrom]
    split
    · exact hq
    · next hc =>
      rcases Nat.lt_or_ge q (p + 1) with hlt | hge
      · exact ih (Nat.lt_succ_iff.mp hlt)
      · exact absurd (Nat.le_antisymm hq hge ▸ h) (by simpa using hc)

theorem scanAskFrom_found (L : Nat → PriceLevel) (k p : Nat) :
    scanAskFrom L p k = MAX_PRICE_LEVELS ∨ (L (scanAskFrom L p k)).size ≠ 0 := by
  induction k generalizing p with
  | zero => exact Or.inl rfl
  | succ k ih =>
    rw [scanAskFrom]
    split
    · next h => exact Or.inr (by simpa using h)
    · exact ih (p + 1)

theorem scanAskFrom_lb (L : Nat → PriceLevel) (k p : Nat) (h : p + k ≤ MAX_PRICE_LEVELS) :
    p ≤ scanAskFrom L p k := by
  induction k generalizing p with
  | zero => simpa [scanAskFrom] using h
  | succ k ih =>
    rw [scanAskFrom]
    split
    · exact Nat.le_refl _
    · exact Nat.le_trans (Nat.le_succ p) (ih (p + 1) (by omega))

theorem scanAskFrom_ub (L : Nat → PriceLevel) (k p : Nat) (h : p + k ≤ MAX_PRICE_LEVELS) :
    scanAskFrom L p k ≤ MAX_PRICE_LEVELS := by
  induction k generalizing p with
  | zero => simp [scanAskFrom]
  | succ k ih =>
    rw [scanAskFrom]
    split
    · omega
    · exact ih (p + 1) (by omega)

theorem scanAskFrom_min (L : Nat → PriceLevel) (k p q : Nat) (hpq : p ≤ q)
    (hq : q < p + k) (h : (L q).size ≠ 0) : scanAskFrom L p k ≤ q := by
  induction k generalizing p with
  | zero => omega
  | succ k ih =>
    rw [scanAskFrom]
    split
    · exact hpq
    · next hc =>
      rcases Nat.lt_or_ge p q with hlt | hge
      · exact ih (p + 1) hlt (by omega)
      · exact absurd (Nat.le_antisymm hpq hge ▸ h) (by simpa using hc)

/-- Cursor facts about the `Bid` match loop: other books untouched, `bidMax`
of the matched book unchanged, `askMin` non-decreasing and bounded by
`MAX_PRICE_LEVELS`, and on exit with remaining size the loop condition is
false. -/
theorem matchBidLoop_spec (sym oPrice oTrader oID : Nat) :
    ∀ fuel e rem e2 rem2,
      matchBidLoop fuel e sym oPrice rem oTrader oID = some (e2, rem2) →
      (∀ t, t ≠ sym → e2.books t = e.books t) ∧
      ((e2.books sym).bidMax = (e.books sym).bidMax) ∧
      ((e.books sym).askMin ≤ MAX_PRICE_LEVELS →
        (e.books sym).askMin ≤ (e2.books sym).askMin ∧
        (e2.books sym).askMin ≤ MAX_PRICE_LEVELS) ∧
      (rem2 ≠ 0 →
        ¬((e2.books sym).askMin < MAX_PRICE_LEVELS ∧ (e2.books sym).askMin ≤ oPrice)) := by
  intro fuel
  induction fuel with
  | zero =>
    intro e rem e2 rem2 h
    exact absurd h (by simp [matchBidLoop])
  | succ fuel ih =>
    intro e rem e2 rem2 h
    rw [matchBidLoop] at h
    split at h
    · dsimp only at h
      split at h
      · exact absurd h (by simp)
      · next e1 rem1 heq =>
        obtain ⟨m1, m2, m3⟩ := matchLevelLoop_books _ _ _ _ _ _ _ _ _ _ _ heq
        by_cases hr1 : rem1 ≠ 0
        · rw [if_pos hr1] at h
          obtain ⟨g1, g2, g3, g4⟩ := ih _ _ _ _ h
          have hm_ne : ∀ t, t ≠ sym →
              (modifyBook e1 sym updateBestAskB).books t = e1.books t :=
            fun t ht => modifyBook_books_ne ht
          have hm_bid : ((modifyBook e1 sym updateBestAskB).books sym).bidMax =
              (e1.books sym).bidMax := by
            rw [modifyBook_books_same, updateBestAskB_bidMax]
          have hm_ask : ((modifyBook e1 sym updateBestAskB).books sym).askMin =
              scanAskFrom (e1.books sym).askLevels (e1.books sym).askMin
                (MAX_PRICE_LEVELS - (e1.books sym).askMin) := by
            rw [modifyBook_books_same]
            rfl
          refine ⟨?_, ?_, ?_, g4⟩
          · intro t ht
            rw [g1 t ht, hm_ne t ht, m1 t ht]
          · rw [g2, hm_bid, m2 sym]
          · intro ha
            have ha1 : (e1.books sym).askMin = (e.books sym).askMin := m3 sym
            have hlb : (e1.books sym).askMin ≤
                scanAskFrom (e1.books sym).askLevels (e1.books sym).askMin
                  (MAX_PRICE_LEVELS - (e1.books sym).askMin) :=
              scanAskFrom_lb _ _ _ (by rw [ha1]; omega)
            have hub : scanAskFrom (e1.books sym).askLevels (e1.books sym).askMin
                (MAX_PRICE_LEVELS - (e1.books sym).askMin) ≤ MAX_PRICE_LEVELS :=
              scanAskFrom_ub _ _ _ (by rw [ha1]; omega)
            obtain ⟨g3a, g3b⟩ := g3 (by rw [hm_ask]; exact hub)
            rw [hm_ask] at g3a
            refine ⟨?_, g3b⟩
            omega
        · rw [if_neg hr1] at h
          obtain ⟨g1, g2, g3, g4⟩ := ih _ _ _ _ h
          refine ⟨?_, ?_, ?_, g4⟩
          · intro t ht
            rw [g1 t ht, m1 t ht]
          · rw [g2, m2 sym]
          · intro ha
            have ha1 : (e1.books sym).askMin = (e.books sym).askMin := m3 sym
            obtain ⟨g3a, g3b⟩ := g3 (by rw [ha1]; exact ha)
            refine ⟨?_, g3b⟩
            omega
    · next hc =>
      cases h
      refine ⟨fun _ _ => rfl, rfl, fun ha => ⟨Nat.le_refl _, ha⟩, ?_⟩
      intro hrem hcon
      exact hc ⟨hrem, hcon.1, hcon.2⟩

/-- Cursor facts about the `Ask` match loop, symmetric to `matchBidLoop_spec`:
`askMin` unchanged, `bidMax` non-increasing, loop-exit condition on return. -/
theorem matchAskLoop_spec (sym oPrice oTrader oID : Nat) :
    ∀ fuel e rem e2 rem2,
      matchAskLoop fuel e sym oPrice rem oTrader oID = some (e2, rem2) →
      (∀ t, t ≠ sym → e2.books t = e.books t) ∧
      ((e2.books sym).askMin = (e.books sym).askMin) ∧
      ((e2.books sym).bidMax ≤ (e.books sym).bidMax) ∧
      (rem2 ≠ 0 →
        ¬(0 < (e2.books sym).bidMax ∧ oPrice ≤ (e2.books sym).bidMax)) := by
  intro fuel
  induction fuel with
  | zero =>
    intro e rem e2 rem2 h
    exact absurd h (by simp [matchAskLoop])
  | succ fuel ih =>
    intro e rem e2 rem2 h
    rw [matchAskLoop] at h
    split at h
    · dsimp only at h
      split at h
      · exact absurd h (by simp)
      · next e1 rem1 heq =>
        obtain ⟨m1, m2, m3⟩ := matchLevelLoop_books _ _ _ _ _ _ _ _ _ _ _ heq
        by_cases hr1 : rem1 ≠ 0
        · rw [if_pos hr1] at h
          obtain ⟨g1, g2, g3, g4⟩ := ih _ _ _ _ h
          have hm_ne : ∀ t, t ≠ sym →
              (modifyBook e1 sym updateBestBidB).books t = e1.books t :=
            fun t ht => modifyBook_books_ne ht
          have hm_ask : ((modifyBook e1 sym updateBestBidB).books sym).askMin =
              (e1.books sym).askMin := by
            rw [modifyBook_books_same, updateBestBidB_askMin]
          have hm_bid : ((modifyBook e1 sym updateBestBidB).books sym).bidMax =
              scanBidFrom (e1.books sym).bidLevels (e1.books sym).bidMax := by
            rw [modifyBook_books_same]
            rfl
          refine ⟨?_, ?_, ?_, g4⟩
          · intro t ht
            rw [g1 t ht, hm_ne t ht, m1 t ht]
          · rw [g2, hm_ask, m3 sym]
          · have hle : scanBidFrom (e1.books sym).bidLevels (e1.books sym).bidMax ≤
                (e1.books sym).bidMax := scanBidFrom_le _ _
            have hb1 : (e1.books sym).bidMax = (e.books sym).bidMax := m2 sym
            rw [hm_bid] at g3
            omega
        · rw [if_neg hr1] at h
          obtain ⟨g1, g2, g3, g4⟩ := ih _ _ _ _ h
          refine ⟨?_, ?_, ?_, g4⟩
          · intro t ht
            rw [g1 t ht, m1 t ht]
          · rw [g2, m3 sym]
          · have hb1 : (e1.books sym).bidMax = (e.books sym).bidMax := m2 sym
            omega
    · next hc =>
      cases h
      refine ⟨fun _ _ => rfl, rfl, Nat.le_refl _, ?_⟩
      intro hrem hcon
      exact hc ⟨hrem, hcon.1, hcon.2⟩

theorem addToBookE_books_ne {e : Engine} {sym : Nat} {oSide : Side}
    {oPrice rem oID : Nat} {t : Nat} (h : t ≠ sym) :
    (addToBookE e sym oSide oPrice rem oID).books t = e.books t := by
  cases oSide with
  | Bid =>
    have hml : ∀ (x : Engine) (f : PriceLevel → PriceLevel),
        (modifyLevel x { sym := sym, side := Side.Bid, price := oPrice } f).books t =
          x.books t := fun x f => modifyLevel_books_ne h
    unfold addToBookE
    dsimp only
    split_ifs <;> simp [hml, modifyOrder_books, modifyBook_books_ne h]
  | Ask =>
    have hml : ∀ (x : Engine) (f : PriceLevel → PriceLevel),
        (modifyLevel x { sym := sym, side := Side.Ask, price := oPrice } f).books t =
          x.books t := fun x f => modifyLevel_books_ne h
    unfold addToBookE
    dsimp only
    split_ifs <;> simp [hml, modifyOrder_books, modifyBook_books_ne h]

theorem addToBookE_bid_cursors (e : Engine) (sym oPrice rem oID : Nat) :
    ((addToBookE e sym Side.Bid oPrice rem oID).books sym).bidMax =
      max (e.books sym).bidMax oPrice ∧
    ((addToBookE e sym Side.Bid oPrice rem oID).books sym).askMin =
      (e.books sym).askMin := by
  constructor <;>
  · unfold addToBookE
    dsimp only
    split_ifs <;>
      simp [modifyLevel_bidMax, modifyLevel_askMin, modifyOrder_books,
        modifyBook_books_same] <;>
      omega

theorem addToBookE_ask_cursors (e : Engine) (sym oPrice rem oID : Nat) :
    ((addToBookE e sym Side.Ask oPrice rem oID).books sym).askMin =
      min (e.books sym).askMin oPrice ∧
    ((addToBookE e sym Side.Ask oPrice rem oID).books sym).bidMax =
      (e.books sym).bidMax := by
  constructor <;>
  · unfold addToBookE
    dsimp only
    split_ifs <;>
      simp [modifyLevel_bidMax, modifyLevel_askMin, modifyOrder_books,
        modifyBook_books_same] <;>
      omega

/-- `Cancel` never moves a best-price cursor. -/
theorem CancelE_cursors (e : Engine) (id : Nat) (e1 : Engine)
    (h : CancelE e id = some e1) (s : Nat) :
    (e1.books s).bidMax = (e.books s).bidMax ∧
    (e1.books s).askMin = (e.books s).askMin := by
  rw [CancelE] at h
  split at h
  · cases h
    exact ⟨rfl, rfl⟩
  · dsimp only at h
    split at h
    · cases h
      exact ⟨rfl, rfl⟩
    · split at h
      · exact absurd h (by simp)
      · cases h
        constructor <;>
        · rw [pushEvent_books]
          split_ifs <;> simp [modifyOrder_books, unlinkE_bidMax, unlinkE_askMin]

theorem newEngine_inv : EngInv newEngine :=
  fun _ => ⟨Nat.le_refl _, Or.inr (Or.inl rfl)⟩

theorem LimitE_inv (fuel : Nat) (e : Engine) (symbol : Nat) (sd : Side)
    (price size trader : Nat) (e1 : Engine)
    (hI : EngInv e) (h : LimitE fuel e symbol sd price size trader = some e1) :
    EngInv e1 := by
  rw [LimitE] at h
  split at h
  · cases h
    intro s
    exact hI s
  · next hv =>
    have hp0 : price ≠ 0 := fun hp => hv (Or.inl hp)
    have hpM : price < MAX_PRICE_LEVELS := by
      by_contra hge
      exact hv (Or.inr (Or.inr (Nat.le_of_not_lt hge)))
    dsimp only at h
    cases sd with
    | Bid =>
      simp only [matchE] at h
      split at h
      · exact absurd h (by simp)
      · next e5 rem heq =>
        obtain ⟨g1, g2, g3, g4⟩ := matchBidLoop_spec symbol price trader
          (limitSetup e symbol Side.Bid price size trader).2 fuel
          (limitSetup e symbol Side.Bid price size trader).1 size e5 rem heq
        simp only [limitSetup_books] at g1 g2 g3
        split at h
        · next hrem =>
          cases h
          intro s
          by_cases hs : s = symbol
          · subst hs
            obtain ⟨hab, haa⟩ := addToBookE_bid_cursors e5 s price rem _
            obtain ⟨hI1, hI2⟩ := hI s
            obtain ⟨g3a, g3b⟩ := g3 hI1
            have hex := g4 hrem
            simp only [BookNoCross] at hI2 ⊢
            rw [hab, haa, g2]
            omega
          · rw [addToBookE_books_ne hs, g1 s hs]
            exact hI s
        · next hrem =>
          cases h
          intro s
          by_cases hs : s = symbol
          · subst hs
            obtain ⟨hI1, hI2⟩ := hI s
            obtain ⟨g3a, g3b⟩ := g3 hI1
            simp only [BookNoCross] at hI2 ⊢
            rw [g2]
            omega
          · rw [g1 s hs]
            exact hI s
    | Ask =>
      simp only [matchE] at h
      split at h
      · exact absurd h (by simp)
      · next e5 rem heq =>
        obtain ⟨g1, g2, g3, g4⟩ := matchAskLoop_spec symbol price trader
          (limitSetup e symbol Side.Ask price size trader).2 fuel
          (limitSetup e symbol Side.Ask price size trader).1 size e5 rem heq
        simp only [limitSetup_books] at g1 g2 g3
        split at h
        · next hrem =>
          cases h
          intro s
          by_cases hs : s = symbol
          · subst hs
            obtain ⟨haa, hab⟩ := addToBookE_ask_cursors e5 s price rem _
            obtain ⟨hI1, hI2⟩ := hI s
            have hex := g4 hrem
            simp only [BookNoCross] at hI2 ⊢
            rw [haa, hab, g2]
            omega
          · rw [addToBookE_books_ne hs, g1 s hs]
            exact hI s
        · next hrem =>
          cases h
          intro s
          by_cases hs : s = symbol
          · subst hs
            obtain ⟨hI1, hI2⟩ := hI s
            simp only [BookNoCross] at hI2 ⊢
            rw [g2]
            omega
          · rw [g1 s hs]
            exact hI s

theorem CancelE_inv (e : Engine) (id : Nat) (e1 : Engine)
    (hI : EngInv e) (h : CancelE e id = some e1) : EngInv e1 := by
  intro s
  obtain ⟨hb, ha⟩ := CancelE_cursors e id e1 h s
  obtain ⟨hI1, hI2⟩ := hI s
  simp only [BookNoCross] at hI2 ⊢
  rw [hb, ha]
  exact ⟨hI1, hI2⟩

theorem runFrom_inv (fuel : Nat) :
    ∀ cmds e e1, EngInv e → runFrom fuel e cmds = some e1 → EngInv e1 := by
  intro cmds
  induction cmds with
  | nil =>
    intro e e1 hI h
    cases h
    exact hI
  | cons c cs ih =>
    intro e e1 hI h
    rw [runFrom] at h
    split at h
    · exact absurd h (by simp)
    · next em hem =>
      refine ih em e1 ?_ h
      cases c with
      | limit symbol sd price size trader => exact LimitE_inv fuel e symbol sd price size trader em hI hem
      | cancel id => exact CancelE_inv e id em hI hem

/-- C5: the book is never crossed at quiescence — after any command sequence
that a fresh engine processes to completion, every book satisfies
`bid_max = 0 ∨ ask_min = MAX_PRICE_LEVELS ∨ bid_max < ask_min`. -/
theorem c5_never_crossed (fuel : Nat) (cmds : List Cmd) (e : Engine) (s : Nat)
    (h : runEngine fuel cmds = some e) :
    (e.books s).bidMax = 0 ∨ (e.books s).askMin = MAX_PRICE_LEVELS ∨
    (e.books s).bidMax < (e.books s).askMin :=
  (runFrom_inv fuel cmds newEngine e newEngine_inv h s).2

/-- Witness for C5: the no-cross disjunction holds after a concrete run. -/
theorem c5_never_crossed_witness :
    ((runEngine 50 s2cmds).getD newEngine |>.books 0).bidMax = 0 ∨
    ((runEngine 50 s2cmds).getD newEngine |>.books 0).askMin = MAX_PRICE_LEVELS ∨
    ((runEngine 50 s2cmds).getD newEngine |>.books 0).bidMax <
      ((runEngine 50 s2cmds).getD newEngine |>.books 0).askMin :=
  c5_never_crossed 50 s2cmds ((runEngine 50 s2cmds).getD newEngine) 0 rfl

/-- C4 (amended): the per-operation exactness of the cursors fails (see the
counterexample), but the lazy rescan routines restore it: starting from any
book whose cursors bound the non-empty levels (`bid_max` an upper bound on
non-empty bid prices, `ask_min ≤ MAX_PRICE_LEVELS` a lower bound on non-empty
ask prices), `updateBestBid` makes `bid_max` the maximum non-empty bid price
or `0`, and `updateBestAsk` makes `ask_min` the minimum non-empty ask price
or `MAX_PRICE_LEVELS`. -/
theorem c4_rescan_restores_exactness (b : OrderBook)
    (hub : ∀ p, p < MAX_PRICE_LEVELS → (b.bidLevels p).size ≠ 0 → p ≤ b.bidMax)
    (ha : b.askMin ≤ MAX_PRICE_LEVELS)
    (hlb : ∀ p, p < MAX_PRICE_LEVELS → (b.askLevels p).size ≠ 0 → b.askMin ≤ p) :
    bidMaxExact (updateBestBidB b) ∧ askMinExact (updateBestAskB b) := by
  constructor
  · refine ⟨scanBidFrom_found b.bidLevels b.bidMax, ?_⟩
    intro p hp hne
    exact scanBidFrom_ge b.bidLevels b.bidMax p (hub p hp hne) hne
  · refine ⟨scanAskFrom_found b.askLevels (MAX_PRICE_LEVELS - b.askMin) b.askMin, ?_⟩
    intro p hp hne
    exact scanAskFrom_min b.askLevels (MAX_PRICE_LEVELS - b.askMin) b.askMin p
      (hlb p hp hne) (by omega) hne

/-- Witness for the amended C4, at the books of a fresh engine. -/
theorem c4_rescan_restores_exactness_witness :
    bidMaxExact (updateBestBidB (newEngine.books 0)) ∧
    askMinExact (updateBestAskB (newEngine.books 0)) :=
  c4_rescan_restores_exactness (newEngine.books 0)
    (fun _ _ h => absurd rfl h)
    (Nat.le_refl _)
    (fun _ _ h => absurd rfl h)

/-- C9: the compile-time constants of the contract have the claimed values;
the freelist array `freeSlots` is sized by `DISTRIBUTOR_BUFFER`, so the
freelist capacity constant is `1024`. -/
theorem c9_constants :
    RING_SIZE = 65536 ∧
    DISTRIBUTOR_BUFFER = 1024 ∧
    MAX_SYMBOLS = 256 ∧
    MAX_PRICE_LEVELS = 16384 ∧
    MAX_ORDERS = 67108864 ∧
    FREE_MASK = 1023 := by
  decide

/-! ### Ring-buffer lemmas and claims C8, C10 -/

theorem RING_SIZE_eq : RING_SIZE = 65536 := by norm_num [RING_SIZE]

theorem U64_eq : U64 = 18446744073709551616 := by norm_num [U64]

theorem mask_mod (x : Nat) : x &&& RING_MASK = x % RING_SIZE := by
  have h := Nat.and_pow_two_sub_one_eq_mod x 16
  simp only [RING_MASK, RING_SIZE]
  exact h

theorem pushIndex_eq {T : Type} (r : RingBuffer T) :
    pushIndex r = r.writePos % RING_SIZE := mask_mod _

theorem readIndex_eq {T : Type} (r : RingBuffer T) (i : Nat) :
    readIndex r i = (r.readPos + i) % RING_SIZE := mask_mod _

theorem ringAvail_eq {T : Type} (r : RingBuffer T) (P O : Nat)
    (hw : r.writePos = P % U64) (hr : r.readPos = O % U64)
    (h1 : O ≤ P) (h2 : P - O ≤ RING_SIZE) : ringAvail r = P - O := by
  rw [ringAvail, hw, hr]
  rw [RING_SIZE_eq] at h2
  simp only [U64_eq]
  omega

theorem ringPush_inv {T : Type} [Inhabited T] (r : RingBuffer T) (v : T)
    (pushed outs : List T) (r1 : RingBuffer T)
    (hinv : RingInv r pushed outs) (h : ringPush r v = some r1) :
    RingInv r1 (pushed ++ [v]) outs := by
  obtain ⟨h1, h2, hw, hr, ho, hb⟩ := hinv
  rw [ringPush] at h
  split at h
  · next hlt =>
    cases h
    have havail : ringAvail r = pushed.length - outs.length :=
      ringAvail_eq r pushed.length outs.length hw hr h1 h2
    rw [havail] at hlt
    have hpi : pushIndex r = pushed.length % RING_SIZE := by
      rw [pushIndex_eq, hw, U64_eq, RING_SIZE_eq]
      omega
    refine ⟨?_, ?_, ?_, ?_, ?_, ?_⟩
    · simp only [List.length_append, List.length_singleton]
      omega
    · simp only [List.length_append, List.length_singleton]
      rw [RING_SIZE_eq] at hlt ⊢
      omega
    · dsimp only
      rw [hw]
      simp only [List.length_append, List.length_singleton, U64_eq]
      omega
    · exact hr
    · rw [List.take_append_of_le_length h1]
      exact ho
    · intro i hi1 hi2
      simp only [List.length_append, List.length_singleton] at hi2
      dsimp only
      rcases Nat.lt_or_ge i pushed.length with hlt2 | hge
      · rw [upd_ne]
        · rw [hb i hi1 hlt2, List.getD_append pushed [v] default i hlt2]
        · rw [hpi, RING_SIZE_eq] at *
          omega
      · have hieq : i = pushed.length := by omega
        subst hieq
        rw [hpi, upd_same, List.getD_append_right pushed [v] default _ (Nat.le_refl _)]
        simp
  · exact absurd h (by simp)

theorem take_succ_getD {T : Type} [Inhabited T] (l : List T) (n : Nat) (h : n < l.length) :
    l.take (n + 1) = l.take n ++ [l.getD n default] := by
  rw [List.take_succ, List.getElem?_eq_getElem h, List.getD_eq_getElem l default h]
  rfl

theorem take_add_range {T : Type} [Inhabited T] (l : List T) (o : Nat) :
    ∀ c, o + c ≤ l.length →
      l.take o ++ (List.range c).map (fun i => l.getD (o + i) default) = l.take (o + c) := by
  intro c
  induction c with
  | zero => simp
  | succ c ih =>
    intro hc
    rw [List.range_succ, List.map_append]
    have hoc : o + c < l.length := by omega
    calc l.take o ++ ((List.range c).map (fun i => l.getD (o + i) default) ++
          [l.getD (o + c) default])
        = (l.take o ++ (List.range c).map (fun i => l.getD (o + i) default)) ++
          [l.getD (o + c) default] := by rw [List.append_assoc]
      _ = l.take (o + c) ++ [l.getD (o + c) default] := by rw [ih (by omega)]
      _ = l.take (o + c + 1) := (take_succ_getD l (o + c) hoc).symm

theorem ringRead_inv {T : Type} [Inhabited T] (r : RingBuffer T) (n : Nat)
    (pushed outs : List T) (r1 : RingBuffer T) (l : List T)
    (hinv : RingInv r pushed outs) (h : ringRead r n = some (r1, l)) :
    RingInv r1 pushed (outs ++ l) := by
  obtain ⟨h1, h2, hw, hr, ho, hb⟩ := hinv
  rw [ringRead] at h
  split at h
  · exact absurd h (by simp)
  · next hne =>
    cases h
    have havail : ringAvail r = pushed.length - outs.length :=
      ringAvail_eq r pushed.length outs.length hw hr h1 h2
    have hcle : min (ringAvail r) n ≤ pushed.length - outs.length := by
      rw [havail]
      omega
    have hmap : (List.range (min (ringAvail r) n)).map (fun i => r.buffer (readIndex r i)) =
        (List.range (min (ringAvail r) n)).map (fun i => pushed.getD (outs.length + i) default) := by
      refine List.map_congr_left ?_
      intro i hi
      rw [List.mem_range] at hi
      have hidx : readIndex r i = (outs.length + i) % RING_SIZE := by
        rw [readIndex_eq, hr, U64_eq, RING_SIZE_eq]
        omega
      rw [hidx]
      exact hb (outs.length + i) (by omega) (by omega)
    refine ⟨?_, ?_, ?_, ?_, ?_, ?_⟩
    · simp only [List.length_append, List.length_map, List.length_range]
      omega
    · simp only [List.length_append, List.length_map, List.length_range]
      omega
    · exact hw
    · dsimp only
      rw [hr]
      simp only [List.length_append, List.length_map, List.length_range, U64_eq]
      omega
    · have hta := take_add_range pushed outs.length (min (ringAvail r) n) (by omega)
      rw [← hmap] at hta
      rw [← ho] at hta
      simp only [List.length_append, List.length_map, List.length_range]
      exact hta
    · intro i hi1 hi2
      simp only [List.length_append, List.length_map, List.length_range] at hi1
      exact hb i (by omega) hi2

theorem runRing_inv {T : Type} [Inhabited T] :
    ∀ (ops : List (ROp T)) (r : RingBuffer T) (outs pushed : List T)
      (r2 : RingBuffer T) (outs2 : List T),
      RingInv r pushed outs →
      runRing ops r outs = some (r2, outs2) →
      RingInv r2 (pushed ++ pushedOf ops) outs2 := by
  intro ops
  induction ops with
  | nil =>
    intro r outs pushed r2 outs2 hinv h
    cases h
    simpa [pushedOf] using hinv
  | cons op ops ih =>
    intro r outs pushed r2 outs2 hinv h
    cases op with
    | push v =>
      rw [runRing] at h
      split at h
      · exact absurd h (by simp)
      · next r1 heq =>
        have hinv1 := ringPush_inv r v pushed outs r1 hinv heq
        have := ih r1 outs (pushed ++ [v]) r2 outs2 hinv1 h
        simpa [pushedOf, List.append_assoc] using this
    | read n =>
      rw [runRing] at h
      split at h
      · exact absurd h (by simp)
      · next r1 l heq =>
        have hinv1 := ringRead_inv r n pushed outs r1 l hinv heq
        have := ih r1 (outs ++ l) pushed r2 outs2 hinv1 h
        simpa [pushedOf] using this

theorem ringNew_inv {T : Type} [Inhabited T] :
    RingInv (ringNew T RING_SIZE) [] [] := by
  refine ⟨Nat.le_refl _, by simp, by simp [ringNew], by simp [ringNew], rfl, ?_⟩
  intro i h1 h2
  simp at h2

/-- C8 (amended): in the linearised SPSC model, a read on a non-empty ring
returns the batch of `min(available, len(out))` elements copied from the
consecutive masked positions starting at `read_pos`, advancing `read_pos` by
the returned count; the count is at least 1 whenever `len(out) ≥ 1` (with
`len(out) = 0` the code returns 0, see the counterexample); and for any
action sequence the concatenation of all read batches is a prefix of the
pushed sequence in push order, wrap-around included. -/
theorem c8_ring_fifo {T : Type} [Inhabited T] (ops : List (ROp T))
    (r2 : RingBuffer T) (outs : List T) (r : RingBuffer T) (n : Nat)
    (r3 : RingBuffer T) (l : List T) (j : Nat)
    (h1 : runRing ops (ringNew T RING_SIZE) [] = some (r2, outs))
    (h2 : ringRead r n = some (r3, l)) :
    outs = (pushedOf ops).take outs.length ∧
    l.length = min (ringAvail r) n ∧
    l = (List.range l.length).map (fun i => r.buffer (readIndex r i)) ∧
    (1 ≤ n → 1 ≤ l.length) ∧
    r3.readPos = (r.readPos + l.length) % U64 ∧
    readIndex r j = (r.readPos + j) % RING_SIZE := by
  have hrun := runRing_inv ops (ringNew T RING_SIZE) [] [] r2 outs ringNew_inv h1
  obtain ⟨-, -, -, -, hpre, -⟩ := hrun
  refine ⟨by simpa using hpre, ?_⟩
  rw [ringRead] at h2
  split at h2
  · exact absurd h2 (by simp)
  · next hne =>
    cases h2
    refine ⟨by simp, ?_, ?_, ?_, mask_mod _⟩
    · simp only [List.length_map, List.length_range]
    · intro hn
      simp only [List.length_map, List.length_range]
      omega
    · dsimp only
      simp only [List.length_map, List.length_range]

/-- Witness for C8: a concrete interleaving of pushes and reads, and a
concrete read of a one-element ring. -/
theorem c8_ring_fifo_witness :
    c8wRun.2 = (pushedOf c8wOps).take c8wRun.2.length ∧
    1 ≤ (((ringRead c8cexRing 3).getD (c8cexRing, [])).2).length := by
  have t := c8_ring_fifo c8wOps c8wRun.1 c8wRun.2 c8cexRing 3
    ((ringRead c8cexRing 3).getD (c8cexRing, [])).1
    ((ringRead c8cexRing 3).getD (c8cexRing, [])).2 0 rfl rfl
  exact ⟨t.1, t.2.2.2.1 (by decide)⟩

/-- C8 counterexample for the unconditional "returns ≥ 1": a read with a
zero-length target on a non-empty ring returns 0 elements. -/
theorem c8_read_zero_counterexample :
    ringAvail c8cexRing = 1 ∧
    (ringRead c8cexRing 0).isSome = true ∧
    ((ringRead c8cexRing 0).getD (c8cexRing, [7])).2.length = 0 := by
  refine ⟨by decide, by decide, by decide⟩

/-- C10: for rings whose allocated length is `RING_SIZE` — as `NewEngine`
constructs them — every masked access of `Push` and `Read` is in bounds;
`RING_MASK` is fixed at `RING_SIZE - 1` independently of the constructor's
size argument, and a ring constructed with a different size can be accessed
out of bounds (`c10oob`). -/
theorem c10_ring_access_bounds {T : Type} [Inhabited T] (r : RingBuffer T)
    (i sz : Nat) (h : r.bufLen = RING_SIZE) :
    pushIndex r < r.bufLen ∧
    readIndex r i < r.bufLen ∧
    RING_MASK = RING_SIZE - 1 ∧
    (ringNew T sz).bufLen = sz ∧
    ¬ pushIndex c10oob < c10oob.bufLen := by
  have hpos : 0 < RING_SIZE := by rw [RING_SIZE_eq]; omega
  refine ⟨?_, ?_, rfl, rfl, by decide⟩
  · rw [h, pushIndex_eq]
    exact Nat.mod_lt _ hpos
  · rw [h, readIndex_eq]
    exact Nat.mod_lt _ hpos

/-- Witness for C10: the input ring as `NewEngine` allocates it. -/
theorem c10_ring_access_bounds_witness :
    pushIndex (ringNew Nat RING_SIZE) < (ringNew Nat RING_SIZE).bufLen ∧
    readIndex (ringNew Nat RING_SIZE) 3 < (ringNew Nat RING_SIZE).bufLen :=
  ⟨(c10_ring_access_bounds (ringNew Nat RING_SIZE) 3 5 rfl).1,
   (c10_ring_access_bounds (ringNew Nat RING_SIZE) 3 5 rfl).2.1⟩

end FemtoGo
